import Mathlib

/-!
Verification development for the spylt provenance-capture library.

The Python source under verification is shallowly embedded below:

* `Spylt.savefig` models `SpyllingFigure.savefig` (src/spylt/core.py),
  together with its helpers `__save_text` / `__save_pickle`: a run is
  rendered as the list of observable effects (`Spylt.Event`) it performs,
  in order.  Subprocess results (`pip freeze`, `conda env export`) and the
  filtered `rcParams` dump are opaque inputs carried in the configuration.
* `Spylt.wrapperData` models the data-mapping computation of
  `wrapper_plot` (src/spylt/wrappers.py), with Python `dict` update
  semantics made explicit (`Spylt.dictInsert`).
* `Spylt.recover_fun` models the generator-recovery algorithm of
  `recover_fun` (src/spylt/recover.py) on the list of `.py` files that
  `path.glob("**/*.py")` returns; Python's import machinery is abstracted
  as attribute resolution over that file set (`Spylt.resolveAttr`), where a
  re-import shim resolves its name through the module it imports from.
* `Spylt.extract_if_zip` models `_extract_if_zip` (src/spylt/recover.py)
  over an abstract filesystem `Spylt.FS`; relative paths (empty `dir`
  component list) are rooted at the process working directory.

File names are embedded structurally: the code only ever builds names as a
base plus a literal extension (`f"{arg}.pickle"`, `with_suffix(".py")`,
`"matplotlibrc"`), so a name is a `Spylt.FName` pair and `Path.name` /
`Path.suffix` become projections.
-/

deriving instance DecidableEq for Except

namespace Spylt

/-- A Python value, restricted to the shapes the claims evaluate:
ints, strings and lists of ints. `typeName` stands for `type(value)`. -/
inductive PyVal where
  | pyInt : Int → PyVal
  | pyStr : String → PyVal
  | pyIntList : List Int → PyVal
deriving DecidableEq

/-- The runtime type of a value, as `isinstance` classifies it against the
`excluded_types` tuple (no proper subclassing occurs among these shapes). -/
def PyVal.typeName : PyVal → String
  | .pyInt _ => "int"
  | .pyStr _ => "str"
  | .pyIntList _ => "list"

/-- A file name, split as Python's `Path` sees the final component:
`base` is `Path.stem`, `ext` is `Path.suffix` (`""` when there is none).
`Path.name` is `base ++ ext`. -/
structure FName where
  base : String
  ext : String
deriving DecidableEq

/-- The payload of one backup write: `__save_text` writes text,
`__save_pickle` writes the pickled value (pickling is opaque byte
serialisation, so the value itself stands for its bytes). -/
inductive FileContent where
  | text : String → FileContent
  | pickled : PyVal → FileContent
deriving DecidableEq

/-- The captured plot function: its `__name__` and its source text as
`inspect.getsource` returns it. -/
structure PlotFun where
  name : String
  source : String
deriving DecidableEq

/-- Dotted module names as `"."`-joined segment lists (`"a.b".split(".")`
inverted); keeping the segments explicit embeds
`module_name.split(".")` in `savefig` without string lemmas. -/
def dottedJoin : List String → String
  | [] => ""
  | [x] => x
  | x :: y :: rest => x ++ "." ++ dottedJoin (y :: rest)

/-- The resolved owning module of the plot function: its dotted name split
into segments, and its full source text (read from `__file__` when the
module is `__main__`, otherwise via `inspect.getsource` — both yield the
same text here). -/
structure PlotModule where
  nameParts : List String
  source : String
deriving DecidableEq

/-- The module's `__name__`. -/
def PlotModule.dotted (m : PlotModule) : String := dottedJoin m.nameParts

/-- Final segment of the module's dotted name: the base of the module's
backup file name. -/
def PlotModule.leaf (m : PlotModule) : String := m.nameParts.getLastD ""

/-- The generator reference held by a `SpyllingFigure` after `__init__`:
no `plot_fun`; a `plot_fun` whose module exposed no `__file__`
(`plot_module is None`); or a `plot_fun` together with its resolved
module. -/
inductive Generator where
  | noGen
  | unresolvable : PlotFun → Generator
  | inModule : PlotFun → PlotModule → Generator
deriving DecidableEq

/-- The state a `SpyllingFigure` carries into `savefig`, plus the opaque
environment inputs that call consumes: `pipFreeze` / `condaExport` are the
subprocess outputs (`none` = non-zero exit), `condaEnvSet` is
`"CONDA_PREFIX" in os.environ`, and `rcText` is the filtered `rcParams`
dump computed at the end of `savefig`. -/
structure SpyllingConfig where
  generator : Generator
  data : List (String × PyVal)
  as_dir : Bool
  zipped : Bool
  excluded_args : List String
  excluded_types : List String
  save_env : Bool
  pipFreeze : Option String
  condaEnvSet : Bool
  condaExport : Option String
  rcText : String
deriving DecidableEq

/-- The first argument of `savefig`: a `str`/`Path` (directory segments,
stem, suffix), a file-like object whose `.name` is such a path, or an
in-memory buffer with no `name` attribute. -/
inductive SaveTarget where
  | path : List String → String → String → SaveTarget
  | filelike : List String → String → String → SaveTarget
  | buffer : SaveTarget
deriving DecidableEq

/-- `fname` resolution at the top of `savefig`: paths and file-like
objects yield `(parent, stem, suffix)`; a bare buffer yields `none` and
`savefig` returns without any backup behaviour. -/
def resolveTarget : SaveTarget → Option (List String × String × String)
  | .path d s e => some (d, s, e)
  | .filelike d s e => some (d, s, e)
  | .buffer => none

/-- One logical backup write, relative to the backup location: extra
directory segments, the file name, the payload. -/
structure WriteEntry where
  dirs : List String
  name : FName
  content : FileContent
deriving DecidableEq

/-- An observable effect of one `savefig` call. -/
inductive Event where
  | baseSave
  | mkdirSavedir : List String → Event
  | looseWrite : List String → WriteEntry → Event
  | zipCreate : List String → String → List (FName × FileContent) → Event
deriving DecidableEq

/-- Python `dict` assignment `d[k] = v` on an association list: replace
the value at an existing key in place, otherwise append. -/
def dictInsert {α β : Type} [DecidableEq α] :
    List (α × β) → α → β → List (α × β)
  | [], k, v => [(k, v)]
  | kv :: rest, k, v =>
      if kv.1 = k then (k, v) :: rest else kv :: dictInsert rest k v

/-- `d.update(kvs)` / `{**d, **kvs}`: fold `dict` assignment over `kvs`. -/
def dictUpdate {α β : Type} [DecidableEq α]
    (d : List (α × β)) (kvs : List (α × β)) : List (α × β) :=
  kvs.foldl (fun acc kv => dictInsert acc kv.1 kv.2) d

/-- Environment-capture writes (`savefig` lines 122-138): `pip freeze`
into `requirements.txt`, then — only when `CONDA_PREFIX` is set —
`conda env export` into `environment.yml`; a failed subprocess is
silently skipped. -/
def envWrites (cfg : SpyllingConfig) : List WriteEntry :=
  if cfg.save_env then
    (match cfg.pipFreeze with
     | some s => [⟨[], ⟨"requirements", ".txt"⟩, .text s⟩]
     | none => []) ++
    (if cfg.condaEnvSet then
       match cfg.condaExport with
       | some s => [⟨[], ⟨"environment", ".yml"⟩, .text s⟩]
       | none => []
     else [])
  else []

/-- The path segments of the module's backup file: every dotted-name
segment becomes a directory, the last becomes the `.py` file's base
(`accumulate(structure, truediv)` with `with_suffix(".py")`). -/
def moduleRelDirs (m : PlotModule) : List String := m.nameParts.dropLast

/-- The one-line re-import shim `from <module> import <function>`. -/
def shimText (m : PlotModule) (f : PlotFun) : String :=
  "from " ++ m.dotted ++ " import " ++ f.name

/-- Source-capture writes (`savefig` lines 140-167): resolved module →
the module's full source under its dotted path, plus a shim named after
the function when the function's name differs from the module's name;
unresolvable function → one file with the function's own source; no
generator → nothing. -/
def sourceWrites (cfg : SpyllingConfig) : List WriteEntry :=
  match cfg.generator with
  | .inModule f m =>
      ⟨moduleRelDirs m, ⟨m.leaf, ".py"⟩, .text m.source⟩ ::
      (if f.name = m.dotted then []
       else [⟨[], ⟨f.name, ".py"⟩, .text (shimText m f)⟩])
  | .unresolvable f => [⟨[], ⟨f.name, ".py"⟩, .text f.source⟩]
  | .noGen => []

/-- Does the data entry survive both exclusion filters?
(`set(data.keys()) - excluded_args`, then
`not isinstance(value, excluded_types)`.) -/
def keptArg (cfg : SpyllingConfig) (kv : String × PyVal) : Bool :=
  decide (kv.1 ∉ cfg.excluded_args ∧ kv.2.typeName ∉ cfg.excluded_types)

/-- Data-capture writes (`savefig` lines 173-177): each retained entry is
pickled to `<name>.pickle`. -/
def pickleWrites (cfg : SpyllingConfig) : List WriteEntry :=
  (cfg.data.filter (keptArg cfg)).map
    (fun kv => ⟨[], ⟨kv.1, ".pickle"⟩, .pickled kv.2⟩)

/-- All writes issued before the archive-finalisation step, in program
order: environment capture, then source capture, then data capture. -/
def preZipWrites (cfg : SpyllingConfig) : List WriteEntry :=
  envWrites cfg ++ sourceWrites cfg ++ pickleWrites cfg

/-- Folding `dict` assignment of buffered payloads over a write list,
starting from the dictionary `d`. -/
def dictOf : List (FName × FileContent) → List WriteEntry →
    List (FName × FileContent)
  | d, [] => d
  | d, w :: rest => dictOf (dictInsert d w.name w.content) rest

/-- The in-memory buffer dictionary `self.__buffers` after the writes in
`l`: `__save_text` / `__save_pickle` key each buffered payload by
`path.name` (the final component only), so nested paths collapse and a
later write to the same name overwrites an earlier one. -/
def buffersOf (l : List WriteEntry) : List (FName × FileContent) :=
  dictOf [] l

/-- The trailing `matplotlibrc` write (`savefig` lines 186-198). -/
def rcWrite (cfg : SpyllingConfig) : WriteEntry :=
  ⟨[], ⟨"matplotlibrc", ""⟩, .text cfg.rcText⟩

/-- The backup effects of `savefig` once a real path `(dir, stem)` has
been resolved.  Zipped: every payload is buffered, the archive
`<stem>.zip` is written from the buffers, and the buffers are cleared —
after which `matplotlibrc` is buffered again but never flushed, so it
produces no effect.  Not zipped: the backup directory is created when
`as_dir` is set, every payload is written loose under the backup
location, and `matplotlibrc` is written last. -/
def backupEvents (cfg : SpyllingConfig) (dir : List String) (stem : String) :
    List Event :=
  let savedir := if cfg.as_dir || cfg.zipped then dir ++ [stem] else dir
  if cfg.zipped then
    [Event.zipCreate dir (stem ++ ".zip") (buffersOf (preZipWrites cfg))]
  else
    (if cfg.as_dir then [Event.mkdirSavedir savedir] else []) ++
    (preZipWrites cfg ++ [rcWrite cfg]).map (Event.looseWrite savedir)

/-- `SpyllingFigure.savefig`: the base `Figure.savefig` runs first; a
buffer target then short-circuits with no backup behaviour; otherwise the
backup sequence runs against the resolved path. -/
def savefig (cfg : SpyllingConfig) (tgt : SaveTarget) : List Event :=
  Event.baseSave ::
  (match resolveTarget tgt with
   | none => []
   | some (dir, stem, _) => backupEvents cfg dir stem)

/-- The loose files a trace writes, as (extra dirs, name, content)
relative to the backup location. -/
def looseRel : List Event → List (List String × FName × FileContent)
  | [] => []
  | .looseWrite _ w :: rest => (w.dirs, w.name, w.content) :: looseRel rest
  | .baseSave :: rest => looseRel rest
  | .mkdirSavedir _ :: rest => looseRel rest
  | .zipCreate _ _ _ :: rest => looseRel rest

/-- The entries of every archive a trace creates. -/
def zipEntriesAll : List Event → List (FName × FileContent)
  | [] => []
  | .zipCreate _ _ entries :: rest => entries ++ zipEntriesAll rest
  | .baseSave :: rest => zipEntriesAll rest
  | .mkdirSavedir _ :: rest => zipEntriesAll rest
  | .looseWrite _ _ :: rest => zipEntriesAll rest

/-- Is the name a `.py` file's? -/
def isPy (n : FName) : Bool := decide (n.ext = ".py")

/-- The `.py` files among a list of writes, as (extra dirs, name). -/
def pyNames (l : List WriteEntry) : List (List String × FName) :=
  (l.filter (fun w => isPy w.name)).map (fun w => (w.dirs, w.name))

/-- The loose `.py` files a trace writes (path relative to the backup
location): what `path.glob("**/*.py")` would later find in directory
form. -/
def loosePyFiles (evs : List Event) : List (List String × FName) :=
  ((looseRel evs).filter (fun w => isPy w.2.1)).map (fun w => (w.1, w.2.1))

/-- The `.py` entries of every archive a trace creates. -/
def zipPyEntries (evs : List Event) : List FName :=
  ((zipEntriesAll evs).map Prod.fst).filter isPy

/-! ### The decorator's data mapping (src/spylt/wrappers.py, `wrapper_plot`) -/

/-- What `inspect.getfullargspec` reports for the decorated function:
the positional parameter names, the default values (right-aligned with
the last parameters) and the keyword-only defaults. -/
structure ArgSpec where
  args : List String
  defaults : List PyVal
  kwonlydefaults : List (String × PyVal)

/-- The defaults dictionary built by
`{argspec.args[-1 - i]: defaults[-1 - i] for i in range(len(defaults))}`:
entry `i` pairs the `i`-th parameter from the end with the `i`-th default
from the end. -/
def defaultsDict (spec : ArgSpec) : List (String × PyVal) :=
  (List.range spec.defaults.length).foldl
    (fun acc i =>
      dictInsert acc (spec.args.reverse.getD i "")
        (spec.defaults.reverse.getD i (.pyInt 0))) []

/-- The data mapping `wrapper_plot` captures for one call:
`{**kwonlydefaults, **defaults}`, then each positional argument bound to
the parameter of the same index (a bound method contributes its `__self__`
as the first positional), then `data.update(kwargs)`. -/
def wrapperData (spec : ArgSpec) (selfArg : Option PyVal)
    (args : List PyVal) (kwargs : List (String × PyVal)) :
    List (String × PyVal) :=
  let base := dictUpdate (dictUpdate [] spec.kwonlydefaults)
    (defaultsDict spec)
  let argIter := match selfArg with
    | some s => s :: args
    | none => args
  let withPos := argIter.enum.foldl
    (fun acc ia => dictInsert acc (spec.args.getD ia.1 "") ia.2) base
  dictUpdate withPos kwargs

/-! ### Generator recovery (src/spylt/recover.py, `recover_fun`) -/

/-- The semantic content of one recovered `.py` file: either a module
definition exposing top-level symbols (each identified by an opaque id),
or a one-line re-import shim `from <target> import <funName>`. -/
inductive PyContent where
  | moduleDef : List (String × Nat) → PyContent
  | shim : String → String → PyContent
deriving DecidableEq

/-- One `.py` file found under the normalized backup directory:
its path segments below that directory (the last segment is the file's
stem), its byte size from `stat().st_size`, and its content. -/
structure PyFile where
  parts : List String
  size : Nat
  content : PyContent
deriving DecidableEq

/-- `Path.stem` of the file. -/
def PyFile.stem (f : PyFile) : String := f.parts.getLastD ""

/-- The dotted module name the file is imported under
(`".".join(pyfile_path.with_suffix("").parts)`). -/
def PyFile.dotted (f : PyFile) : String := dottedJoin f.parts

/-- `getattr(import_module(moduleName of f), attr)`, with the import
machinery abstracted over the recovered file set: a module definition
resolves the attribute among its own symbols; a shim module executes its
`from <target> import <funName>` line, so its sole attribute `funName`
resolves through the module definition named `target`. -/
def resolveAttr (fs : List PyFile) (f : PyFile) (attr : String) :
    Option Nat :=
  match f.content with
  | .moduleDef attrs => attrs.lookup attr
  | .shim target funName =>
      if attr = funName then
        match fs.find? (fun g => decide (g.dotted = target)) with
        | some g =>
            match g.content with
            | .moduleDef attrs => attrs.lookup funName
            | .shim _ _ => none
        | none => none
      else none

/-- How one `recover.py` operation fails: the `ValueError` naming the
`.py`-file count (corrupt backup), or an import/attribute failure. -/
inductive RecoverErr where
  | corruptBackup : Nat → RecoverErr
  | attributeError : RecoverErr
deriving DecidableEq

/-- The outcome of `getattr(module, name)`: the resolved symbol, or the
`AttributeError` / import failure. -/
def attrResult (r : Option Nat) : Except RecoverErr Nat :=
  match r with
  | some v => .ok v
  | none => .error .attributeError

/-- `recover_fun` on the `.py` files globbed under the normalized backup
directory.  One file: import it and take the attribute named by its stem.
Two files: `module_idx = int(file_sizes[0] < file_sizes[1])` indexes the
larger file, `p = py_files[1 - module_idx]` is the smaller one; import
`p`'s module and take the attribute named by `p`'s stem.  Any other
count: the corruption `ValueError` naming the count. -/
def recover_fun (py_files : List PyFile) : Except RecoverErr Nat :=
  match py_files with
  | [p] => attrResult (resolveAttr py_files p p.stem)
  | [p0, p1] =>
      let module_idx : Nat := if p0.size < p1.size then 1 else 0
      let p := if module_idx = 1 then p0 else p1
      attrResult (resolveAttr py_files p p.stem)
  | l => .error (.corruptBackup l.length)

/-! ### Path normalization (src/spylt/recover.py, `_extract_if_zip`) -/

/-- A filesystem path as `_extract_if_zip` manipulates it: directory
segments, then the final component split as `Path.stem` / `Path.suffix`.
An empty `dir` means the path is relative to the working directory. -/
structure SPath where
  dir : List String
  stem : String
  suffix : String
deriving DecidableEq

/-- The abstract filesystem: which paths are directories and which are
(non-directory) files. -/
structure FS where
  dirs : List SPath
  files : List SPath
deriving DecidableEq

/-- `path.exists()`: a directory or a file is present at the path. -/
def FS.present (fs : FS) (p : SPath) : Prop := p ∈ fs.dirs ∨ p ∈ fs.files

instance (fs : FS) (p : SPath) : Decidable (fs.present p) := by
  unfold FS.present; infer_instance

/-- The effect of `zipfile.ZipFile(path).extractall(path.stem)`: the
target directory named after the stem is created relative to the working
directory (the extracted members land under it; only the directory's
existence matters below). -/
def extractTo (fs : FS) (stem : String) : FS :=
  ⟨⟨[], stem, ""⟩ :: fs.dirs, fs.files⟩

/-- `path.with_suffix("")`. -/
def stripSuffix (p : SPath) : SPath := ⟨p.dir, p.stem, ""⟩

/-- `path.with_suffix(".zip")`. -/
def zipSuffix (p : SPath) : SPath := ⟨p.dir, p.stem, ".zip"⟩

/-- The filesystem after the conditional extraction step of
`_extract_if_zip` (assuming the archive opens). -/
def postExtractFS (fs : FS) (p : SPath) : FS :=
  if p.suffix = ".zip" then extractTo fs p.stem else fs

/-- How `_extract_if_zip` fails: the `ValueError` "No recovery files
could be found" (not-found), or the `FileNotFoundError` that
`zipfile.ZipFile` raises when the `.zip`-suffixed path does not exist. -/
inductive PathErr where
  | notFound
  | zipOpenError
deriving DecidableEq

/-- `_extract_if_zip`: a directory is returned as is.  Otherwise a
`.zip`-suffixed path is extracted into a working-directory-relative
directory named after its stem (a missing archive raises while opening);
then the suffix-stripped path is returned if anything exists there, else
the stem with a `.zip` suffix if that exists, else the not-found
`ValueError` is raised. -/
def extract_if_zip (fs : FS) (path : SPath) :
    Except PathErr (FS × SPath) :=
  if path ∈ fs.dirs then .ok (fs, path)
  else if path.suffix = ".zip" ∧ path ∉ fs.files then .error .zipOpenError
  else
    let fs1 := postExtractFS fs path
    if fs1.present (stripSuffix path) then .ok (fs1, stripSuffix path)
    else if fs1.present (zipSuffix path) then .ok (fs1, zipSuffix path)
    else .error .notFound

/-! ### Derived counts used by the file-count invariant -/

/-- The `.py` file count the spec attributes to each generator variant:
none → 0; unresolvable → 1; resolved module → 1 when the function's name
equals the module's name, else module plus shim → 2. -/
def expectedPyCount : Generator → Nat
  | .noGen => 0
  | .unresolvable _ => 1
  | .inModule f m => if f.name = m.dotted then 1 else 2

/-- The `.py` entry count an archived backup actually gets: as
`expectedPyCount`, except that the module file and the shim collapse into
one entry when the function's name equals the final segment of the
module's dotted name, because archive buffers are keyed by `path.name`
alone. -/
def expectedPyCountZipped : Generator → Nat
  | .inModule f m =>
      if f.name = m.dotted then 1 else if f.name = m.leaf then 1 else 2
  | .noGen => 0
  | .unresolvable _ => 1

/-! ### Helper lemmas -/

theorem looseRel_append (a b : List Event) :
    looseRel (a ++ b) = looseRel a ++ looseRel b := by
  induction a with
  | nil => rfl
  | cons e rest ih => cases e <;> simp [looseRel, ih]

theorem looseRel_map_looseWrite (sd : List String) (l : List WriteEntry) :
    looseRel (l.map (Event.looseWrite sd)) =
      l.map (fun w => (w.dirs, w.name, w.content)) := by
  induction l with
  | nil => rfl
  | cons w rest ih => simp [looseRel, ih]

theorem looseRel_savefig_path (cfg : SpyllingConfig) (dir : List String)
    (stem sfx : String) (hz : cfg.zipped = false) :
    looseRel (savefig cfg (.path dir stem sfx)) =
      (preZipWrites cfg ++ [rcWrite cfg]).map
        (fun w => (w.dirs, w.name, w.content)) := by
  unfold savefig resolveTarget backupEvents
  simp only [hz]
  by_cases ha : cfg.as_dir <;>
    simp [ha, looseRel, looseRel_append, looseRel_map_looseWrite]

theorem looseRel_savefig_zipped (cfg : SpyllingConfig) (dir : List String)
    (stem sfx : String) (hz : cfg.zipped = true) :
    looseRel (savefig cfg (.path dir stem sfx)) = [] := by
  unfold savefig resolveTarget backupEvents
  simp [hz, looseRel]

theorem zipEntriesAll_savefig_zipped (cfg : SpyllingConfig)
    (dir : List String) (stem sfx : String) (hz : cfg.zipped = true) :
    zipEntriesAll (savefig cfg (.path dir stem sfx)) =
      buffersOf (preZipWrites cfg) := by
  unfold savefig resolveTarget backupEvents
  simp [hz, zipEntriesAll]

theorem zipEntriesAll_savefig_loose (cfg : SpyllingConfig)
    (dir : List String) (stem sfx : String) (hz : cfg.zipped = false) :
    zipEntriesAll (savefig cfg (.path dir stem sfx)) = [] := by
  unfold savefig resolveTarget backupEvents
  simp only [hz]
  by_cases ha : cfg.as_dir <;>
    · simp only [ha]
      induction preZipWrites cfg ++ [rcWrite cfg] with
      | nil => rfl
      | cons w rest ih => simpa [zipEntriesAll] using ih

theorem pyNames_append (l1 l2 : List WriteEntry) :
    pyNames (l1 ++ l2) = pyNames l1 ++ pyNames l2 := by
  simp [pyNames, List.filter_append]

theorem pyNames_envWrites (cfg : SpyllingConfig) :
    pyNames (envWrites cfg) = [] := by
  unfold envWrites
  by_cases hs : cfg.save_env <;>
    by_cases hc : cfg.condaEnvSet <;>
      cases cfg.pipFreeze <;> cases cfg.condaExport <;>
        simp [hs, hc, pyNames, isPy, List.filter]

theorem pyNames_pickleWrites (cfg : SpyllingConfig) :
    pyNames (pickleWrites cfg) = [] := by
  unfold pickleWrites
  induction cfg.data.filter (keptArg cfg) with
  | nil => rfl
  | cons kv rest ih => simpa [pyNames, isPy, List.filter] using ih

/-- The keys of a buffer dictionary. -/
def keysD (d : List (FName × FileContent)) : List FName := d.map Prod.fst

/-- The `.py` keys of a buffer dictionary. -/
def pyKeysD (d : List (FName × FileContent)) : List FName :=
  (keysD d).filter isPy

theorem keysD_dictInsert (d : List (FName × FileContent)) (k : FName)
    (c : FileContent) :
    keysD (dictInsert d k c) =
      if k ∈ keysD d then keysD d else keysD d ++ [k] := by
  induction d with
  | nil => simp [dictInsert, keysD]
  | cons kv rest ih =>
    by_cases h : kv.1 = k
    · simp [dictInsert, h, keysD]
    · have hne : ¬ k = kv.1 := fun he => h he.symm
      simp only [dictInsert, if_neg h, keysD, List.map_cons] at ih ⊢
      rw [ih]
      by_cases hm : k ∈ List.map Prod.fst rest <;>
        simp [hm, hne]

theorem pyKeysD_dictInsert_nonpy (d : List (FName × FileContent))
    (k : FName) (c : FileContent) (h : isPy k = false) :
    pyKeysD (dictInsert d k c) = pyKeysD d := by
  unfold pyKeysD
  rw [keysD_dictInsert]
  by_cases hm : k ∈ keysD d
  · rw [if_pos hm]
  · rw [if_neg hm, List.filter_append]
    simp [h]

theorem pyKeysD_dictInsert_mem (d : List (FName × FileContent))
    (k : FName) (c : FileContent) (h : k ∈ keysD d) :
    pyKeysD (dictInsert d k c) = pyKeysD d := by
  unfold pyKeysD
  rw [keysD_dictInsert, if_pos h]

theorem pyKeysD_dictInsert_py_new (d : List (FName × FileContent))
    (k : FName) (c : FileContent) (hpy : isPy k = true) (h : k ∉ keysD d) :
    pyKeysD (dictInsert d k c) = pyKeysD d ++ [k] := by
  unfold pyKeysD
  rw [keysD_dictInsert, if_neg h, List.filter_append]
  simp [hpy]

/-- No key of the dictionary names a `.py` file. -/
def NoPyKeys (d : List (FName × FileContent)) : Prop :=
  ∀ n ∈ keysD d, isPy n = false

theorem noPyKeys_dictInsert (d : List (FName × FileContent)) (k : FName)
    (c : FileContent) (hd : NoPyKeys d) (hk : isPy k = false) :
    NoPyKeys (dictInsert d k c) := by
  intro n hn
  rw [keysD_dictInsert] at hn
  by_cases hm : k ∈ keysD d
  · rw [if_pos hm] at hn; exact hd n hn
  · rw [if_neg hm] at hn
    rcases List.mem_append.mp hn with h1 | h1
    · exact hd n h1
    · rcases List.mem_singleton.mp h1 with rfl; exact hk

theorem noPyKeys_dictOf (l : List WriteEntry)
    (hl : ∀ w ∈ l, isPy w.name = false) :
    ∀ d, NoPyKeys d → NoPyKeys (dictOf d l) := by
  induction l with
  | nil => intro d hd; exact hd
  | cons w rest ih =>
    intro d hd
    exact ih (fun x hx => hl x (List.mem_cons_of_mem _ hx)) _
      (noPyKeys_dictInsert d w.name w.content hd
        (hl w (List.mem_cons_self _ _)))

theorem pyKeysD_dictOf_nonpy (l : List WriteEntry)
    (hl : ∀ w ∈ l, isPy w.name = false) :
    ∀ d, pyKeysD (dictOf d l) = pyKeysD d := by
  induction l with
  | nil => intro d; rfl
  | cons w rest ih =>
    intro d
    rw [dictOf, ih (fun x hx => hl x (List.mem_cons_of_mem _ hx)),
      pyKeysD_dictInsert_nonpy _ _ _ (hl w (List.mem_cons_self _ _))]

theorem noPyKeys_not_mem (d : List (FName × FileContent)) (k : FName)
    (hd : NoPyKeys d) (hk : isPy k = true) : k ∉ keysD d := by
  intro hm
  rw [hd k hm] at hk
  exact Bool.false_ne_true hk

theorem noPyKeys_pyKeysD_nil (d : List (FName × FileContent))
    (hd : NoPyKeys d) : pyKeysD d = [] := by
  unfold pyKeysD
  exact List.filter_eq_nil_iff.mpr (fun n hn => by rw [hd n hn]; simp)

theorem envWrites_nonpy (cfg : SpyllingConfig) :
    ∀ w ∈ envWrites cfg, isPy w.name = false := by
  unfold envWrites
  by_cases hs : cfg.save_env <;>
    by_cases hc : cfg.condaEnvSet <;>
      cases cfg.pipFreeze <;> cases cfg.condaExport <;>
        simp [hs, hc, isPy]

theorem pickleWrites_nonpy (cfg : SpyllingConfig) :
    ∀ w ∈ pickleWrites cfg, isPy w.name = false := by
  unfold pickleWrites
  intro w hw
  rcases List.mem_map.mp hw with ⟨kv, _, rfl⟩
  simp [isPy]

theorem dictOf_append (a b : List WriteEntry) :
    ∀ d, dictOf d (a ++ b) = dictOf (dictOf d a) b := by
  induction a with
  | nil => intro d; rfl
  | cons w rest ih => intro d; rw [List.cons_append, dictOf, dictOf, ih]

theorem pyKeysD_buffers_source (cfg : SpyllingConfig) :
    (pyKeysD (buffersOf (preZipWrites cfg))).length =
      expectedPyCountZipped cfg.generator := by
  unfold buffersOf preZipWrites
  rw [dictOf_append, dictOf_append]
  have h0 : NoPyKeys (dictOf [] (envWrites cfg)) :=
    noPyKeys_dictOf _ (envWrites_nonpy cfg) [] (fun n hn => absurd hn
      (List.not_mem_nil n))
  rw [pyKeysD_dictOf_nonpy _ (pickleWrites_nonpy cfg)]
  have hnil : pyKeysD (dictOf [] (envWrites cfg)) = [] :=
    noPyKeys_pyKeysD_nil _ h0
  cases hg : cfg.generator with
  | noGen =>
    simp only [sourceWrites, hg, dictOf, expectedPyCountZipped]
    rw [hnil]
    rfl
  | unresolvable f =>
    simp only [sourceWrites, hg, dictOf, expectedPyCountZipped]
    rw [pyKeysD_dictInsert_py_new _ _ _ (by simp [isPy])
      (noPyKeys_not_mem _ _ h0 (by simp [isPy])), hnil]
    rfl
  | inModule f m =>
    by_cases he : f.name = m.dotted
    · simp only [sourceWrites, hg, he, if_pos rfl, dictOf,
        expectedPyCountZipped]
      rw [pyKeysD_dictInsert_py_new _ _ _ (by simp [isPy])
        (noPyKeys_not_mem _ _ h0 (by simp [isPy])), hnil]
      simp [he]
    · simp only [sourceWrites, hg, if_neg he, dictOf,
        expectedPyCountZipped]
      have h1 : pyKeysD (dictInsert (dictOf [] (envWrites cfg))
          ⟨m.leaf, ".py"⟩ (.text m.source)) =
          [⟨m.leaf, ".py"⟩] := by
        rw [pyKeysD_dictInsert_py_new _ _ _ (by simp [isPy])
          (noPyKeys_not_mem _ _ h0 (by simp [isPy])), hnil]
        rfl
      by_cases hc : f.name = m.leaf
      · have hm : (⟨f.name, ".py"⟩ : FName) ∈ keysD (dictInsert
            (dictOf [] (envWrites cfg)) ⟨m.leaf, ".py"⟩
            (.text m.source)) := by
          rw [keysD_dictInsert,
            if_neg (noPyKeys_not_mem _ _ h0 (by simp [isPy]))]
          simp [hc]
        rw [pyKeysD_dictInsert_mem _ _ _ hm, h1]
        simp [he, hc]
      · have hm : (⟨f.name, ".py"⟩ : FName) ∉ keysD (dictInsert
            (dictOf [] (envWrites cfg)) ⟨m.leaf, ".py"⟩
            (.text m.source)) := by
          rw [keysD_dictInsert,
            if_neg (noPyKeys_not_mem _ _ h0 (by simp [isPy]))]
          intro hmem
          rcases List.mem_append.mp hmem with h1' | h1'
          · exact noPyKeys_not_mem _ _ h0 (by simp [isPy]) h1'
          · rcases List.mem_singleton.mp h1' with h2
            exact hc (congrArg FName.base h2)
        rw [pyKeysD_dictInsert_py_new _ _ _ (by simp [isPy]) hm, h1]
        simp [he, hc]

theorem loosePyFiles_savefig (cfg : SpyllingConfig) (dir : List String)
    (stem sfx : String) (hz : cfg.zipped = false) :
    loosePyFiles (savefig cfg (.path dir stem sfx)) =
      pyNames (preZipWrites cfg ++ [rcWrite cfg]) := by
  unfold loosePyFiles pyNames
  rw [looseRel_savefig_path cfg dir stem sfx hz, List.filter_map,
    List.map_map]
  rfl

theorem pyNames_rcWrite (cfg : SpyllingConfig) :
    pyNames [rcWrite cfg] = [] := by
  simp [pyNames, rcWrite, isPy, List.filter]

theorem pyNames_savefig_source (cfg : SpyllingConfig) (dir : List String)
    (stem sfx : String) (hz : cfg.zipped = false) :
    loosePyFiles (savefig cfg (.path dir stem sfx)) =
      pyNames (sourceWrites cfg) := by
  rw [loosePyFiles_savefig cfg dir stem sfx hz, pyNames_append,
    pyNames_rcWrite, preZipWrites, pyNames_append, pyNames_append,
    pyNames_envWrites, pyNames_pickleWrites]
  simp

theorem moduleRelDirs_leaf_cases (m : PlotModule) :
    (moduleRelDirs m = [] ∧ m.leaf = m.dotted) ∨ moduleRelDirs m ≠ [] := by
  unfold moduleRelDirs PlotModule.leaf PlotModule.dotted
  cases hp : m.nameParts with
  | nil => left; simp [dottedJoin]
  | cons x rest =>
    cases rest with
    | nil => left; simp [dottedJoin, List.getLastD]
    | cons y t => right; simp [List.dropLast]

theorem pyNames_sourceWrites (cfg : SpyllingConfig) :
    (pyNames (sourceWrites cfg)).length = expectedPyCount cfg.generator
    ∧ (pyNames (sourceWrites cfg)).Nodup := by
  cases hg : cfg.generator with
  | noGen => simp [sourceWrites, hg, pyNames, expectedPyCount]
  | unresolvable f =>
    simp [sourceWrites, hg, pyNames, expectedPyCount, isPy, List.filter]
  | inModule f m =>
    by_cases he : f.name = m.dotted
    · simp [sourceWrites, hg, he, pyNames, expectedPyCount, isPy,
        List.filter]
    · have hne : (moduleRelDirs m, (⟨m.leaf, ".py"⟩ : FName)) ≠
          (([] : List String), (⟨f.name, ".py"⟩ : FName)) := by
        intro hcontra
        rcases moduleRelDirs_leaf_cases m with ⟨hd, hl⟩ | hd
        · have : m.leaf = f.name := congrArg (fun p => p.2.base) hcontra
          exact he (by rw [← hl, this])
        · exact hd (congrArg Prod.fst hcontra)
      constructor
      · simp [sourceWrites, hg, he, pyNames, expectedPyCount, isPy,
          List.filter]
      · simp only [sourceWrites, hg, if_neg he, pyNames, isPy]
        simp only [List.filter, decide_eq_true_eq]
        simp [List.filter, hne]

theorem attrResult_ne_corrupt (r : Option Nat) (n : Nat) :
    attrResult r ≠ .error (.corruptBackup n) := by
  cases r <;> simp [attrResult]

/-! ### Claim theorems -/

/-- C8: in every invocation of the wrapped persist operation, the base
library's persist completes first — the trace starts with the base save
and no backup event is another base save, so no backup-writing behavior
precedes or re-runs the base persistence. -/
theorem savefig_base_persist_first (cfg : SpyllingConfig)
    (tgt : SaveTarget) :
    ∃ backup, savefig cfg tgt = Event.baseSave :: backup ∧
      Event.baseSave ∉ backup := by
  refine ⟨_, rfl, ?_⟩
  cases tgt with
  | buffer => simp [resolveTarget]
  | path d s e =>
    simp only [resolveTarget]
    unfold backupEvents
    by_cases hz : cfg.zipped <;> by_cases ha : cfg.as_dir <;>
      simp [hz, ha, List.mem_append, List.mem_map]
  | filelike d s e =>
    simp only [resolveTarget]
    unfold backupEvents
    by_cases hz : cfg.zipped <;> by_cases ha : cfg.as_dir <;>
      simp [hz, ha, List.mem_append, List.mem_map]

/-- C9: persisting to an in-memory buffer (no path, no filename
attribute) performs the base save and then returns: the trace holds no
mkdir, no loose write and no archive creation, for every configuration. -/
theorem savefig_buffer_no_backup (cfg : SpyllingConfig) :
    savefig cfg SaveTarget.buffer = [Event.baseSave] := rfl

/-- C2 (code bug): with the archived policy, the zip written for
`data = {"arg": 1}` holds only `arg.pickle`, while the identical
non-archived save writes both `arg.pickle` and `matplotlibrc` — the
`matplotlibrc` payload is buffered only after the archive has been
flushed and the buffers cleared, so the archive's entry set differs from
the loose file set, contradicting the archive-equivalence property that
`tests/test_core.py::test_zipped` also asserts. -/
theorem savefig_zipped_drops_matplotlibrc :
    zipEntriesAll (savefig
        ⟨.noGen, [("arg", .pyInt 1)], true, true, [], [], false, none,
          false, none, "rc"⟩ (.path ["tmp"] "fig" ".png")) =
      [(⟨"arg", ".pickle"⟩, .pickled (.pyInt 1))]
  ∧ looseRel (savefig
        ⟨.noGen, [("arg", .pyInt 1)], true, false, [], [], false, none,
          false, none, "rc"⟩ (.path ["tmp"] "fig" ".png")) =
      [([], ⟨"arg", ".pickle"⟩, .pickled (.pyInt 1)),
       ([], ⟨"matplotlibrc", ""⟩, .text "rc")]
  ∧ (⟨"matplotlibrc", ""⟩ : FName) ∉
      (zipEntriesAll (savefig
        ⟨.noGen, [("arg", .pyInt 1)], true, true, [], [], false, none,
          false, none, "rc"⟩ (.path ["tmp"] "fig" ".png"))).map
        Prod.fst := by
  refine ⟨?_, ?_, ?_⟩ <;> decide

/-- C7: decorating `paramed_plot(y, c="g", ls="--")` and calling it with
`y=[1,2]` positional and `c="b"` keyword captures the data mapping
`{"y": [1, 2], "c": "b", "ls": "--"}`: the right-aligned defaults,
overridden by the call's positional and keyword arguments. -/
theorem wrapper_data_paramed_plot :
    List.Perm
      (wrapperData ⟨["y", "c", "ls"], [.pyStr "g", .pyStr "--"], []⟩
        none [.pyIntList [1, 2]] [("c", .pyStr "b")])
      [("y", PyVal.pyIntList [1, 2]), ("c", PyVal.pyStr "b"),
       ("ls", PyVal.pyStr "--")] := by
  decide

/-- C3 (counterexample): a backup directory with zero `.py` files is not
treated as no-generator-captured — `recover_fun` raises the corruption
`ValueError` naming count 0. -/
theorem recover_fun_zero_files_corrupt :
    recover_fun ([] : List PyFile) = .error (.corruptBackup 0) := rfl

/-- C3 (amended): generator recovery raises the corruption error naming
the actual count if and only if the number of `.py` files is neither 1
nor 2 — including the zero-file case, which is reported as corruption
with count 0 rather than as no-generator-captured. -/
theorem recover_fun_corrupt_iff (py_files : List PyFile) :
    (recover_fun py_files = .error (.corruptBackup py_files.length)) ↔
      (py_files.length ≠ 1 ∧ py_files.length ≠ 2) := by
  match py_files with
  | [] => simp [recover_fun]
  | [p] =>
    constructor
    · intro h
      exact absurd h (attrResult_ne_corrupt _ _)
    · rintro ⟨h1, _⟩
      exact absurd rfl h1
  | [p0, p1] =>
    constructor
    · intro h
      exact absurd h (attrResult_ne_corrupt _ _)
    · rintro ⟨_, h2⟩
      exact absurd rfl h2
  | p0 :: p1 :: p2 :: rest =>
    simp only [recover_fun]
    constructor
    · intro _
      constructor <;> simp [List.length_cons]
    · intro _
      trivial

/-- C1: for a backup with exactly two `.py` files where the larger is a
module definition and the smaller the re-import shim naming the module,
recovery returns the symbol of the larger file's module whose name is the
smaller file's stem, whichever order the directory listing presents the
two files in. -/
theorem recover_fun_two_file_disambiguation (a b : PyFile)
    (attrs : List (String × Nat)) (v : Nat)
    (hsize : b.size < a.size)
    (hmod : a.content = .moduleDef attrs)
    (hshim : b.content = .shim a.dotted b.stem)
    (hlook : attrs.lookup b.stem = some v)
    (hname : b.dotted ≠ a.dotted) :
    recover_fun [a, b] = .ok v ∧ recover_fun [b, a] = .ok v := by
  have hres1 : resolveAttr [a, b] b b.stem = some v := by
    have hfind : List.find? (fun g => decide (g.dotted = a.dotted))
        [a, b] = some a := by
      rw [List.find?_cons_of_pos]
      simp
    simp [resolveAttr, hshim, hfind, hmod, hlook]
  have hres2 : resolveAttr [b, a] b b.stem = some v := by
    have hfind : List.find? (fun g => decide (g.dotted = a.dotted))
        [b, a] = some a := by
      rw [List.find?_cons_of_neg, List.find?_cons_of_pos] <;>
        simp [hname]
    simp [resolveAttr, hshim, hfind, hmod, hlook]
  have hlt : ¬ a.size < b.size := Nat.not_lt.mpr (Nat.le_of_lt hsize)
  constructor
  · show recover_fun [a, b] = .ok v
    simp only [recover_fun]
    rw [if_neg hlt, if_neg (by decide : ¬ (0 : Nat) = 1), hres1]
    rfl
  · show recover_fun [b, a] = .ok v
    simp only [recover_fun]
    rw [if_pos hsize, if_pos (rfl : (1 : Nat) = 1), hres2]
    rfl

/-- C1 (witness): the spec's concrete scenario — a 500-byte `mymodule.py`
defining `scatter` among other symbols and a 40-byte shim `scatter.py`
re-importing it — resolves to `mymodule`'s `scatter` in both listing
orders. -/
theorem recover_fun_two_file_disambiguation_witness :
    recover_fun
        [⟨["mymodule"], 500, .moduleDef [("scatter", 7), ("other", 3)]⟩,
         ⟨["scatter"], 40, .shim "mymodule" "scatter"⟩] = .ok 7
    ∧ recover_fun
        [⟨["scatter"], 40, .shim "mymodule" "scatter"⟩,
         ⟨["mymodule"], 500, .moduleDef [("scatter", 7), ("other", 3)]⟩]
          = .ok 7 :=
  recover_fun_two_file_disambiguation
    ⟨["mymodule"], 500, .moduleDef [("scatter", 7), ("other", 3)]⟩
    ⟨["scatter"], 40, .shim "mymodule" "scatter"⟩
    [("scatter", 7), ("other", 3)] 7 (by decide) rfl (by decide)
    (by decide) (by decide)

theorem loosePyFiles_savefig_zipped (cfg : SpyllingConfig)
    (dir : List String) (stem sfx : String) (hz : cfg.zipped = true) :
    loosePyFiles (savefig cfg (.path dir stem sfx)) = [] := by
  unfold loosePyFiles
  rw [looseRel_savefig_zipped cfg dir stem sfx hz]
  rfl

theorem zipPyEntries_eq_pyKeysD (evs : List Event) :
    zipPyEntries evs = pyKeysD (zipEntriesAll evs) := rfl

theorem zipPyEntries_savefig_loose (cfg : SpyllingConfig)
    (dir : List String) (stem sfx : String) (hz : cfg.zipped = false) :
    zipPyEntries (savefig cfg (.path dir stem sfx)) = [] := by
  rw [zipPyEntries_eq_pyKeysD,
    zipEntriesAll_savefig_loose cfg dir stem sfx hz]
  rfl

/-- C4 (counterexample): an archived save whose generator is a function
`plot` living in module `pkg.plot` — a resolved module plus a re-import
shim, so the claim's enumeration expects two `.py` files — produces an
archive holding exactly one `.py` entry: buffers are keyed by the final
path component alone, so `pkg/plot.py` and the shim `plot.py` collide. -/
theorem savefig_zipped_shim_collision :
    zipPyEntries (savefig
        ⟨.inModule ⟨"plot", "def plot"⟩ ⟨["pkg", "plot"], "module text"⟩,
         [], true, true, [], [], false, none, false, none, "rc"⟩
        (.path [] "fig" ".png")) = [⟨"plot", ".py"⟩]
  ∧ ("plot" : String) ≠
      PlotModule.dotted ⟨["pkg", "plot"], "module text"⟩ := by
  constructor <;> decide

/-- C4 (amended): the number of `.py` source files a save writes is
always 0, 1 or 2, never more; in directory form the count is exactly 0
(no generator), 1 (unresolvable function, or function name equal to
module name) or 2 (module plus shim, at distinct paths), while in
archived form the module-plus-shim case collapses to one entry when the
function's name equals the final segment of the module's dotted name,
since archive entries are keyed by basename. -/
theorem savefig_py_file_count (cfg : SpyllingConfig) (dir : List String)
    (stem sfx : String) :
    ((loosePyFiles (savefig cfg (.path dir stem sfx))).length =
       if cfg.zipped then 0 else expectedPyCount cfg.generator)
  ∧ (loosePyFiles (savefig cfg (.path dir stem sfx))).Nodup
  ∧ ((zipPyEntries (savefig cfg (.path dir stem sfx))).length =
       if cfg.zipped then expectedPyCountZipped cfg.generator else 0)
  ∧ (loosePyFiles (savefig cfg (.path dir stem sfx))).length ≤ 2
  ∧ (zipPyEntries (savefig cfg (.path dir stem sfx))).length ≤ 2 := by
  have hb1 : expectedPyCount cfg.generator ≤ 2 := by
    cases hg : cfg.generator with
    | noGen => simp [expectedPyCount]
    | unresolvable f => simp [expectedPyCount]
    | inModule f m =>
      by_cases he : f.name = m.dotted <;> simp [expectedPyCount, he]
  have hb2 : expectedPyCountZipped cfg.generator ≤ 2 := by
    cases hg : cfg.generator with
    | noGen => simp [expectedPyCountZipped]
    | unresolvable f => simp [expectedPyCountZipped]
    | inModule f m =>
      by_cases he : f.name = m.dotted <;>
        by_cases hc : f.name = m.leaf <;>
          simp [expectedPyCountZipped, he, hc]
  by_cases hz : cfg.zipped
  · have hl := loosePyFiles_savefig_zipped cfg dir stem sfx hz
    have hzp : (zipPyEntries (savefig cfg (.path dir stem sfx))).length =
        expectedPyCountZipped cfg.generator := by
      rw [zipPyEntries_eq_pyKeysD,
        zipEntriesAll_savefig_zipped cfg dir stem sfx hz,
        pyKeysD_buffers_source]
    refine ⟨?_, ?_, ?_, ?_, ?_⟩
    · rw [hl, if_pos hz]; rfl
    · rw [hl]; exact List.nodup_nil
    · rw [hzp, if_pos hz]
    · rw [hl]; simp
    · rw [hzp]; exact hb2
  · have hz' : cfg.zipped = false := Bool.not_eq_true _ |>.mp hz
    have hl := pyNames_savefig_source cfg dir stem sfx hz'
    have hsrc := pyNames_sourceWrites cfg
    have hzp := zipPyEntries_savefig_loose cfg dir stem sfx hz'
    refine ⟨?_, ?_, ?_, ?_, ?_⟩
    · rw [hl, if_neg hz]; exact hsrc.1
    · rw [hl]; exact hsrc.2
    · rw [hzp, if_neg hz]; rfl
    · rw [hl, hsrc.1]; exact hb1
    · rw [hzp]; simp

theorem envWrites_ext (cfg : SpyllingConfig) :
    ∀ w ∈ envWrites cfg, w.name.ext = ".txt" ∨ w.name.ext = ".yml" := by
  unfold envWrites
  by_cases hs : cfg.save_env <;> by_cases hc : cfg.condaEnvSet <;>
    cases cfg.pipFreeze <;> cases cfg.condaExport <;> simp [hs, hc]

theorem sourceWrites_ext (cfg : SpyllingConfig) :
    ∀ w ∈ sourceWrites cfg, w.name.ext = ".py" := by
  unfold sourceWrites
  cases cfg.generator with
  | noGen => simp
  | unresolvable f => simp
  | inModule f m => by_cases he : f.name = m.dotted <;> simp [he]

/-- C6: a data-mapping entry (name, value) is written — as a pickle file
named `<name>.pickle` directly in the backup location — exactly when its
name is not in the excluded-name set and its value's runtime type is not
among the excluded types; either filter alone suppresses the write. -/
theorem savefig_exclusion_filters (cfg : SpyllingConfig)
    (dir : List String) (stem sfx : String) (k : String) (v : PyVal)
    (hz : cfg.zipped = false) :
    ((([] : List String), (⟨k, ".pickle"⟩ : FName),
        FileContent.pickled v) ∈
      looseRel (savefig cfg (.path dir stem sfx))) ↔
      ((k, v) ∈ cfg.data ∧ k ∉ cfg.excluded_args ∧
        v.typeName ∉ cfg.excluded_types) := by
  rw [looseRel_savefig_path cfg dir stem sfx hz]
  constructor
  · intro h
    rcases List.mem_map.mp h with ⟨w, hw, heq⟩
    have hn : w.name = ⟨k, ".pickle"⟩ := congrArg (fun t => t.2.1) heq
    have hc : w.content = .pickled v := congrArg (fun t => t.2.2) heq
    rcases List.mem_append.mp hw with hw | hw
    · unfold preZipWrites at hw
      rcases List.mem_append.mp hw with hw | hw
      · rcases List.mem_append.mp hw with hw | hw
        · rcases envWrites_ext cfg w hw with hx | hx
          · rw [hn] at hx
            exact absurd hx (by decide : (".pickle" : String) ≠ ".txt")
          · rw [hn] at hx
            exact absurd hx (by decide : (".pickle" : String) ≠ ".yml")
        · have hx := sourceWrites_ext cfg w hw
          rw [hn] at hx
          exact absurd hx (by decide : (".pickle" : String) ≠ ".py")
      · unfold pickleWrites at hw
        rcases List.mem_map.mp hw with ⟨⟨k', v'⟩, hkv, hkveq⟩
        have hk' : k' = k := by
          have h1 := congrArg WriteEntry.name hkveq
          rw [hn] at h1
          simpa using h1
        have hv' : v' = v := by
          have h1 := congrArg WriteEntry.content hkveq
          rw [hc] at h1
          simpa using h1
        subst hk'
        subst hv'
        have hmem := List.mem_filter.mp hkv
        have hkept := hmem.2
        simp only [keptArg, decide_eq_true_eq] at hkept
        exact ⟨hmem.1, hkept.1, hkept.2⟩
    · have hone : w = rcWrite cfg := List.mem_singleton.mp hw
      rw [hone] at hn
      exact absurd (congrArg FName.ext hn)
        (by decide : ("" : String) ≠ ".pickle")
  · rintro ⟨h1, h2, h3⟩
    apply List.mem_map.mpr
    refine ⟨⟨[], ⟨k, ".pickle"⟩, .pickled v⟩, ?_, rfl⟩
    apply List.mem_append.mpr
    left
    unfold preZipWrites
    apply List.mem_append.mpr
    right
    unfold pickleWrites
    apply List.mem_map.mpr
    exact ⟨(k, v),
      List.mem_filter.mpr ⟨h1, by simp [keptArg, h2, h3]⟩, rfl⟩

/-- C6 (witness): with no exclusions in force for it, the entry
`("a", 1)` is written as `a.pickle`. -/
theorem savefig_exclusion_filters_witness :
    ((([] : List String), (⟨"a", ".pickle"⟩ : FName),
        FileContent.pickled (.pyInt 1)) ∈
      looseRel (savefig
        ⟨.noGen, [("a", .pyInt 1)], true, false, ["x"], ["str"], false,
          none, false, none, "rc"⟩ (.path [] "fig" ".png"))) ↔
      ((("a", PyVal.pyInt 1) ∈
          [(("a" : String), PyVal.pyInt 1)]) ∧
        ("a" : String) ∉ ["x"] ∧
        (PyVal.pyInt 1).typeName ∉ ["str"]) :=
  savefig_exclusion_filters
    ⟨.noGen, [("a", .pyInt 1)], true, false, ["x"], ["str"], false,
      none, false, none, "rc"⟩ [] "fig" ".png" "a" (.pyInt 1) rfl

/-- C5 (counterexample): with an archive `fig.zip` on disk and the
figure path `fig.png` passed in, path normalization does not extract the
archive (the filesystem is unchanged) and returns the archive file path
itself, which is not an existing backup directory — extraction happens
only when the passed path's own suffix is `.zip`. -/
theorem extract_if_zip_stem_archive_not_extracted :
    extract_if_zip ⟨[], [⟨[], "fig", ".zip"⟩]⟩ ⟨[], "fig", ".png"⟩ =
      .ok (⟨[], [⟨[], "fig", ".zip"⟩]⟩, ⟨[], "fig", ".zip"⟩)
  ∧ (⟨[], "fig", ".zip"⟩ : SPath) ∉
      (⟨[], [⟨[], "fig", ".zip"⟩]⟩ : FS).dirs := by
  constructor <;> decide

/-- C5 (amended): for a path that is not already a directory (and whose
archive exists when its suffix is `.zip`, else opening it raises an IO
error instead), normalization extracts only when the suffix is `.zip`;
it then returns the suffix-stripped path if anything exists there, else
the stem with `.zip` suffix — unextracted — if that exists, and raises
the not-found `ValueError` exactly when neither exists. -/
theorem extract_if_zip_cases (fs : FS) (p : SPath)
    (hdir : p ∉ fs.dirs)
    (hzip : ¬ (p.suffix = ".zip" ∧ p ∉ fs.files)) :
    ((postExtractFS fs p).present (stripSuffix p) ∧
       extract_if_zip fs p = .ok (postExtractFS fs p, stripSuffix p))
    ∨ (¬ (postExtractFS fs p).present (stripSuffix p) ∧
       (postExtractFS fs p).present (zipSuffix p) ∧
       extract_if_zip fs p = .ok (postExtractFS fs p, zipSuffix p))
    ∨ (¬ (postExtractFS fs p).present (stripSuffix p) ∧
       ¬ (postExtractFS fs p).present (zipSuffix p) ∧
       extract_if_zip fs p = .error .notFound) := by
  unfold extract_if_zip
  rw [if_neg hdir, if_neg hzip]
  by_cases h1 : (postExtractFS fs p).present (stripSuffix p)
  · left
    exact ⟨h1, by simp [h1]⟩
  · by_cases h2 : (postExtractFS fs p).present (zipSuffix p)
    · right; left
      exact ⟨h1, h2, by simp [h1, h2]⟩
    · right; right
      exact ⟨h1, h2, by simp [h1, h2]⟩

/-- C5 (amended): for a path that is not already a directory (and whose
archive exists when its suffix is `.zip`, else opening it raises an IO
error instead), normalization extracts only when the suffix is `.zip`;
it then returns the suffix-stripped path if anything exists there, else
the stem with `.zip` suffix — unextracted — if that exists, and raises
the not-found `ValueError` exactly when neither exists. -/
theorem extract_if_zip_resolution (fs : FS) (p : SPath)
    (hdir : p ∉ fs.dirs)
    (hzip : p.suffix = ".zip" → p ∈ fs.files) :
    ((extract_if_zip fs p = .error .notFound) ↔
       (¬ (postExtractFS fs p).present (stripSuffix p)
        ∧ ¬ (postExtractFS fs p).present (zipSuffix p)))
  ∧ ((postExtractFS fs p).present (stripSuffix p) →
       extract_if_zip fs p = .ok (postExtractFS fs p, stripSuffix p))
  ∧ (¬ (postExtractFS fs p).present (stripSuffix p) →
       (postExtractFS fs p).present (zipSuffix p) →
       extract_if_zip fs p = .ok (postExtractFS fs p, zipSuffix p)) := by
  have hno : ¬ (p.suffix = ".zip" ∧ p ∉ fs.files) := by
    rintro ⟨h1, h2⟩
    exact h2 (hzip h1)
  rcases extract_if_zip_cases fs p hdir hno with
    ⟨h1, he⟩ | ⟨h1, h2, he⟩ | ⟨h1, h2, he⟩
  · refine ⟨?_, fun _ => he, fun hn1 _ => absurd h1 hn1⟩
    rw [he]
    simp [h1]
  · refine ⟨?_, fun hp1 => absurd hp1 h1, fun _ _ => he⟩
    rw [he]
    simp [h2]
  · refine ⟨?_, fun hp1 => absurd hp1 h1, fun _ hp2 => absurd hp2 h2⟩
    rw [he]
    simp [h1, h2]

/-- C5 (witness): with directory `fig` on disk, the figure path
`fig.png` normalizes to that directory. -/
theorem extract_if_zip_resolution_witness :
    extract_if_zip ⟨[⟨[], "fig", ""⟩], []⟩ ⟨[], "fig", ".png"⟩ =
      .ok (postExtractFS ⟨[⟨[], "fig", ""⟩], []⟩ ⟨[], "fig", ".png"⟩,
        stripSuffix ⟨[], "fig", ".png"⟩) :=
  (extract_if_zip_resolution ⟨[⟨[], "fig", ""⟩], []⟩ ⟨[], "fig", ".png"⟩
    (by decide) (by decide)).2.1 (by decide)

/-- C10: a `.zip`-suffixed path is extracted into a directory named
after its stem relative to the working directory, not next to the
archive: the returned path keeps the archive's own directory, so for an
archive in another directory the extraction target and the returned
(globbed) directory differ. -/
theorem extract_if_zip_extracts_to_cwd (fs : FS) (p : SPath)
    (hdir : p ∉ fs.dirs) (hsuf : p.suffix = ".zip")
    (hfile : p ∈ fs.files) :
    ∃ ret, extract_if_zip fs p = .ok (extractTo fs p.stem, ret)
      ∧ (⟨[], p.stem, ""⟩ : SPath) ∈ (extractTo fs p.stem).dirs
      ∧ ret.dir = p.dir
      ∧ (p.dir ≠ [] → ret ≠ (⟨[], p.stem, ""⟩ : SPath)) := by
  have hno : ¬ (p.suffix = ".zip" ∧ p ∉ fs.files) := by
    rintro ⟨_, h2⟩
    exact h2 hfile
  have hpost : postExtractFS fs p = extractTo fs p.stem := by
    unfold postExtractFS
    rw [if_pos hsuf]
  have hzp : zipSuffix p = p := by
    unfold zipSuffix
    cases p
    simp_all
  rcases extract_if_zip_cases fs p hdir hno with
    ⟨h1, he⟩ | ⟨h1, h2, he⟩ | ⟨h1, h2, he⟩
  · refine ⟨stripSuffix p, ?_, ?_, rfl, ?_⟩
    · rw [← hpost]
      exact he
    · simp [extractTo]
    · intro hne hcontra
      exact hne (congrArg SPath.dir hcontra)
  · refine ⟨zipSuffix p, ?_, ?_, rfl, ?_⟩
    · rw [← hpost]
      exact he
    · simp [extractTo]
    · intro hne hcontra
      exact hne (congrArg SPath.dir hcontra)
  · exfalso
    apply h2
    right
    rw [hpost, hzp]
    exact hfile

/-- C10 (witness): the archive `a/b.zip` is extracted into the
working-directory-relative `b`, while the path handed back for globbing
stays under `a`. -/
theorem extract_if_zip_extracts_to_cwd_witness :
    ∃ ret, extract_if_zip ⟨[], [⟨["a"], "b", ".zip"⟩]⟩
        ⟨["a"], "b", ".zip"⟩ =
        .ok (extractTo ⟨[], [⟨["a"], "b", ".zip"⟩]⟩ "b", ret)
      ∧ (⟨[], "b", ""⟩ : SPath) ∈
          (extractTo ⟨[], [⟨["a"], "b", ".zip"⟩]⟩ "b").dirs
      ∧ ret.dir = ["a"]
      ∧ ((["a"] : List String) ≠ [] → ret ≠ (⟨[], "b", ""⟩ : SPath)) :=
  extract_if_zip_extracts_to_cwd ⟨[], [⟨["a"], "b", ".zip"⟩]⟩
    ⟨["a"], "b", ".zip"⟩ (by decide) rfl (by decide)

end Spylt
